import Mathlib

/-!
Verification of the Reuma ETL process controller (`controller.py`,
`db_engine.py`, `errors.py`, `log_printer.py`, `translator.py`).

Shallow embedding conventions:
* Python scalar values become `Value` (`None` is `.null`, the float NaN that
  pandas arithmetic can produce is `.nan`, datetimes/dates carry an abstract
  day code `Nat` — `datetime.date()` extracts that code).
* A Python dict (and a pandas row) is an association list `Row` with the
  dict update semantics (`rowInsert` overwrites in place, appends new keys).
* A pandas lookup of a column missing from a row is modelled as `.null`
  (pandas fills missing columns with NaN, and `pd.isna` holds for both).
* External collaborators (SQLAlchemy inspector columns, the remote
  Microsoft translation service, `json.dumps`, `datetime.now`) are the
  fields of an `Env` record; the initial database contents of the lazily
  loaded `dictionary` and `encounters` tables travel in `Env` too.
* The mutable fields of `ProcessController` (plus the exception-log line
  count of `log_printer.write_to_log_file`) form `PCState`.  Two extra
  fields are pure instrumentation, written but never read by the embedded
  code: `trace` records every `add_row_to_batch` call (queued table and
  normalized row) and `saved` records every `save_new_row_to_dwh` call;
  `remote_calls` counts calls to the remote translation service.
* A computation that raises an exception the Python code does not catch
  (e.g. the `KeyError` of `mandatory_cols['start_date']`) is `none` in
  `Option`; the typed exceptions the controller does catch are modelled by
  `PcError` / `Except`.
-/

namespace Reuma

/-- A scalar value as it appears in a Python/pandas row. -/
inductive Value where
  | null
  | str (s : String)
  | int (n : Int)
  | date (d : Nat)
  | nan
  deriving DecidableEq, Repr

/-- A Python dict / pandas row: an association list from column names to
scalar values, unique keys by construction. -/
abbrev Row := List (String × Value)

/-- Dict lookup: first binding of the key. -/
def rowFind (r : Row) (k : String) : Option Value :=
  (r.find? (fun p => p.1 = k)).map (·.2)

/-- Python dict assignment `r[k] = v`: overwrite in place, append if new. -/
def rowInsert : Row → String → Value → Row
  | [], k, v => [(k, v)]
  | (k', v') :: rest, k, v =>
    if k' = k then (k', v) :: rest else (k', v') :: rowInsert rest k v

/-- The keys of a row, in dict iteration order. -/
def rowKeys (r : Row) : List String := r.map (·.1)

/-- `org_row[c]` on a pandas row: the value, or NaN/None when the column is
missing (modelled as `.null`, which `isna` holds for). -/
def getCol (r : Row) (c : String) : Value := (rowFind r c).getD .null

/-- `pd.isna` on a scalar: true for `None` and NaN. -/
def isna : Value → Bool
  | .null => true
  | .nan => true
  | _ => false

/-- Python truthiness of a scalar: `None`, the empty string and numeric zero
are falsy; dates are truthy; notably `bool(float('nan'))` is `True`. -/
def truthy : Value → Bool
  | .null => false
  | .str s => !(s = "")
  | .int n => !(n = 0)
  | .date _ => true
  | .nan => true

/-- One Hebrew letter, the character class `[א-ת]` (U+05D0 .. U+05EA). -/
def isHebChar (c : Char) : Bool := 0x05D0 ≤ c.toNat && c.toNat ≤ 0x05EA

/-- `re.search('[א-ת]', s)`: does the string contain a Hebrew letter?
(stated over the string's character list). -/
def hasHeb (s : String) : Bool := s.data.any isHebChar

/-- A row of the `data_catalog` table, restricted to the fields the
controller reads.  `concept_cd` and `modifier_cd` are nullable; `none`
models SQL NULL (`pd.isna`). -/
structure CatalogRow where
  table_name : String
  column_name : String
  target_table : String
  target_column : String
  concept_cd : Option String
  modifier_cd : Option String
  deriving DecidableEq, Repr

/-- The external collaborators of the controller. -/
structure Env where
  /-- `DBEngine.get_columns`: the ordered column list of a warehouse table. -/
  get_columns : String → List String
  /-- `DBEngine.get_not_null_columns`: NOT NULL columns, in inspector order. -/
  get_not_null_columns : String → List String
  /-- the remote translation service, `translator.translate` (he → en). -/
  translate : String → String
  /-- `json.dumps(new_row, default=serialize_datetime)`, abstracted. -/
  row_json : Row → String
  /-- `datetime.now()`, as an abstract day code (constant within a run). -/
  now : Nat
  /-- contents of the warehouse `dictionary` table at run start
  (`SELECT * FROM dictionary`), as (he, en) pairs in row order. -/
  db_dictionary : List (String × String)
  /-- contents of the warehouse `encounters` table at run start
  (`SELECT * FROM encounters`), as (date, encounter_num) pairs. -/
  db_encounters : List (Nat × Value)

/-- The mutable state of `ProcessController` (plus instrumentation). -/
structure PCState where
  /-- `self.dwh_dictionary`, `none` before the lazy load. -/
  dwh_dictionary : Option (List (String × String))
  /-- `self.encounters`, `none` before the lazy load. -/
  encounters : Option (List (Nat × Value))
  /-- `self.batch_que`: per-table queues, in dict insertion order. -/
  batch_que : List (String × List Row)
  /-- number of lines already in today's exception log file. -/
  log_lines : Nat
  /-- instrumentation: every `add_row_to_batch` call (table, normalized row). -/
  trace : List (String × Row)
  /-- instrumentation: every `save_new_row_to_dwh` call (table, rows). -/
  saved : List (String × List Row)
  /-- instrumentation: number of remote translation-service calls. -/
  remote_calls : Nat
  deriving DecidableEq, Repr

/-- The controller state at the start of a run. -/
def initState : PCState :=
  { dwh_dictionary := none, encounters := none, batch_que := [],
    log_lines := 0, trace := [], saved := [], remote_calls := 0 }

/-- The three typed exceptions of `errors.py` that the controller catches. -/
inductive PcError where
  | mandatoryFieldMissing (org_col_name : String)
  | notNullColumnIsMissing (not_null_col : String)
  | originalDataFieldIsMissing (org_col_name : String)
  deriving DecidableEq, Repr

/-- `log_printer.write_to_log_file`: append one line to the log file and
return its 1-based index (count of existing lines, plus one). -/
def write_to_log_file (st : PCState) : Nat × PCState :=
  (st.log_lines + 1, { st with log_lines := st.log_lines + 1 })

/-- A nullable string column value (`catalog_row['concept_cd']` etc.). -/
def optStr : Option String → Value
  | some s => .str s
  | none => .null

/-- Lookup of the batch queue dict. -/
def queFind (q : List (String × List Row)) (t : String) : Option (List Row) :=
  (q.find? (fun p => p.1 = t)).map (·.2)

/-- Assignment into the batch queue dict (Python dict semantics). -/
def queSet : List (String × List Row) → String → List Row → List (String × List Row)
  | [], t, rows => [(t, rows)]
  | (t', rows') :: rest, t, rows =>
    if t' = t then (t', rows) :: rest else (t', rows') :: queSet rest t rows

/-- The row normalization inside `add_row_to_batch`: ensure all table
columns are present, filling absent ones with `None`. -/
def fillRow (env : Env) (table_name : String) (r : Row) : Row :=
  (env.get_columns table_name).foldl
    (fun acc col => if (rowFind acc col).isSome then acc else rowInsert acc col .null) r

/-- `ProcessController.add_row_to_batch`: normalize the row, append it to
the table's queue, and flush the queue to the warehouse once it holds 100
rows.  (The `LogPrinter` counter updates are console-only and omitted.) -/
def add_row_to_batch (env : Env) (new_row : Row) (table_name : String) (st : PCState) : PCState :=
  let new_row := fillRow env table_name new_row
  let st := { st with trace := st.trace ++ [(table_name, new_row)] }
  let q := (queFind st.batch_que table_name).getD [] ++ [new_row]
  if 100 ≤ q.length then
    { st with batch_que := queSet st.batch_que table_name [],
              saved := st.saved ++ [(table_name, q)] }
  else
    { st with batch_que := queSet st.batch_que table_name q }

/-- `ProcessController.save_all_rows_in_que`: write every non-empty queue
to the warehouse.  (The source iterates the queue dict and saves each
non-empty table queue; it does not clear the queues.) -/
def save_all_rows_in_que (st : PCState) : PCState :=
  { st with saved := st.saved ++ st.batch_que.filter (fun p => 0 < p.2.length) }

/-- First translation of a Hebrew word found in the in-memory dictionary
(`dictionary.loc[dictionary['he'] == heb_word, 'en'].iloc[0]`). -/
def lookupDict (d : List (String × String)) (s : String) : Option String :=
  (d.find? (fun p => p.1 = s)).map (·.2)

/-- The loop body of `ProcessController.translate_heb_words`, iterating the
row's (key, value) items and building `translated_row`. -/
def translateLoop (env : Env) : List (String × Value) → Row → PCState → Row × PCState
  | [], acc, st => (acc, st)
  | (key, value) :: rest, acc, st =>
    match value with
    | .str s =>
      if hasHeb s then
        -- lazy load of the warehouse dictionary
        let st := { st with dwh_dictionary := some (st.dwh_dictionary.getD env.db_dictionary) }
        let dict := st.dwh_dictionary.getD []
        match lookupDict dict s with
        | some en => translateLoop env rest (rowInsert acc key (.str en)) st
        | none =>
          let en := env.translate s
          let st := { st with remote_calls := st.remote_calls + 1 }
          let st := add_row_to_batch env [("he", .str s), ("en", .str en)] "dictionary" st
          let st := { st with dwh_dictionary := some (dict ++ [(s, en)]) }
          translateLoop env rest (rowInsert acc key (.str en)) st
      else translateLoop env rest (rowInsert acc key value) st
    | _ => translateLoop env rest (rowInsert acc key value) st

/-- `ProcessController.translate_heb_words`: translate every Hebrew string
value of the row, consulting the in-memory dictionary first and the remote
service (then recording the new pair) on a miss. -/
def translate_heb_words (env : Env) (row : Row) (st : PCState) : Row × PCState :=
  translateLoop env row [] st

/-- `encounters['encounter_num'].max() + 1`: pandas `max` skips NA values,
and on an empty (or all-NA) column produces NaN, which `+ 1` keeps as NaN. -/
def encMaxPlus1 (encs : List (Nat × Value)) : Value :=
  match (encs.filterMap (fun p => match p.2 with | .int n => some n | _ => none)).foldl
      (fun acc n => match acc with | none => some n | some m => some (max m n)) none with
  | some m => .int (m + 1)
  | none => .nan

/-- `ProcessController.add_encounter_num`: lazily load the encounters
table, look the row's start date up, allocate `max + 1` for a new date
(also queuing the new encounters row), and set `encounter_num`.
`none` models the uncaught `KeyError`/`AttributeError` when
`mandatory_cols['start_date']` is absent or not a datetime. -/
def add_encounter_num (env : Env) (mandatory_cols : Row) (st : PCState) :
    Option (Row × PCState) :=
  let st := { st with encounters := some (st.encounters.getD env.db_encounters) }
  let encs := st.encounters.getD []
  match rowFind mandatory_cols "start_date" with
  | some (.date d) =>
    match encs.find? (fun p => p.1 = d) with
    | some p => some (rowInsert mandatory_cols "encounter_num" p.2, st)
    | none =>
      let num := encMaxPlus1 encs
      let st := add_row_to_batch env [("date", .date d), ("encounter_num", num)] "encounters" st
      let st := { st with encounters := some (encs ++ [(d, num)]) }
      some (rowInsert mandatory_cols "encounter_num" num, st)
  | _ => none

/-- `ProcessController.validate_row`, reformulated as a total function: the
first NOT NULL column (in inspector order) that is absent from the row or
bound to a falsy value — the source raises `NotNullColumnIsMissing` on it —
or `none` when validation passes. -/
def validate_row (env : Env) (dwh_table_name : String) (new_row : Row) : Option String :=
  (env.get_not_null_columns dwh_table_name).find? (fun c =>
    match rowFind new_row c with
    | none => true
    | some v => !truthy v)

/-- `ProcessController.handle_exception`: write a log line (modelled by the
line counter) and queue a structured audit row to the `exceptions` table. -/
def handle_exception (env : Env) (org_table_name dwh_table_name : String)
    (org_row : Row) (new_row : Row) (e : PcError) (st : PCState) : PCState :=
  let target_col : Option String :=
    match e with
    | .notNullColumnIsMissing c => some c
    | _ => none
  let org_col : Option String :=
    match e with
    | .mandatoryFieldMissing c => some c
    | .originalDataFieldIsMissing c => some c
    | _ => none
  -- the log message text (which also embeds org_row) lives only in the log
  -- file; the model keeps the returned 1-based line index
  let idSt := write_to_log_file st
  add_row_to_batch env
    [("log_file_id", .int idSt.1),
     ("target_table", .str dwh_table_name),
     ("org_table", .str org_table_name),
     ("target_col", optStr target_col),
     ("org_col", optStr org_col),
     ("row_json", .str (env.row_json new_row))] "exceptions" idSt.2

/-- `ProcessController.process_row_by_observation_fact_rules`: build one
observation-fact candidate row from one catalog rule, or record the typed
failure (`OriginalDataFieldIsMissing` / `NotNullColumnIsMissing`). -/
def process_row_by_observation_fact_rules (env : Env) (org_table_name dwh_table_name : String)
    (mandatory_cols : Row) (org_row : Row) (catalog_row : CatalogRow) (st : PCState) : PCState :=
  let new_row := mandatory_cols
  let org_col_name := catalog_row.column_name
  if isna (getCol org_row org_col_name) then
    handle_exception env org_table_name dwh_table_name org_row new_row
      (.originalDataFieldIsMissing org_col_name) st
  else
    let new_row := rowInsert new_row catalog_row.target_column (getCol org_row org_col_name)
    let new_row := rowInsert new_row "concept_cd" (optStr catalog_row.concept_cd)
    let new_row := rowInsert new_row "modifier_cd" (optStr catalog_row.modifier_cd)
    let new_row :=
      if (rowFind new_row "tval_char").isSome then rowInsert new_row "valtype_cd" (.str "t")
      else if (rowFind new_row "nval_num").isSome then rowInsert new_row "valtype_cd" (.str "n")
      else new_row
    let rowSt := translate_heb_words env new_row st
    match validate_row env dwh_table_name rowSt.1 with
    | some c =>
      handle_exception env org_table_name dwh_table_name org_row rowSt.1
        (.notNullColumnIsMissing c) rowSt.2
    | none => add_row_to_batch env rowSt.1 dwh_table_name rowSt.2

/-- `ProcessController.observation_fact_process`: attach the encounter
number, then apply first the catalog rules with `modifier_cd == '@'` and
then the rules whose `modifier_cd` is present and different from `'@'`,
each producing its own candidate row. -/
def observation_fact_process (env : Env) (org_table_name dwh_table_name : String)
    (mandatory_cols : Row) (org_row : Row) (org_dwh_tbl_cat : List CatalogRow)
    (st : PCState) : Option PCState :=
  match add_encounter_num env mandatory_cols st with
  | none => none
  | some (mc, st) =>
    let no_modifier_rows := org_dwh_tbl_cat.filter (fun r => decide (r.modifier_cd = some "@"))
    let st := no_modifier_rows.foldl
      (fun st cr => process_row_by_observation_fact_rules env org_table_name dwh_table_name
        mc org_row cr st) st
    let catalog_rows := org_dwh_tbl_cat.filter
      (fun r => r.modifier_cd.isSome && decide (r.modifier_cd ≠ some "@"))
    let st := catalog_rows.foldl
      (fun st cr => process_row_by_observation_fact_rules env org_table_name dwh_table_name
        mc org_row cr st) st
    some st

/-- `ProcessController.concept_dimension_process`. -/
def concept_dimension_process (env : Env) (org_table_name dwh_table_name : String)
    (mandatory_cols : Row) (org_row : Row) (st : PCState) : PCState :=
  let mc :=
    match rowFind mandatory_cols "concept_desc" with
    | some v => rowInsert mandatory_cols "name_char" v
    | none => mandatory_cols
  let rowSt := translate_heb_words env mc st
  match validate_row env dwh_table_name rowSt.1 with
  | some c =>
    handle_exception env org_table_name dwh_table_name org_row rowSt.1
      (.notNullColumnIsMissing c) rowSt.2
  | none => add_row_to_batch env rowSt.1 dwh_table_name rowSt.2

/-- `ProcessController.patient_dimension_process`: merge the `'@'` rules
into one row, then translate, validate and queue it. -/
def patient_dimension_process (env : Env) (org_table_name dwh_table_name : String)
    (mandatory_cols : Row) (org_row : Row) (org_dwh_tbl_cat : List CatalogRow)
    (st : PCState) : PCState :=
  let no_modifier_rows := org_dwh_tbl_cat.filter (fun r => decide (r.modifier_cd = some "@"))
  let mc := no_modifier_rows.foldl
    (fun mc cr =>
      if isna (getCol org_row cr.column_name) then mc
      else rowInsert mc cr.target_column (getCol org_row cr.column_name)) mandatory_cols
  let rowSt := translate_heb_words env mc st
  match validate_row env dwh_table_name rowSt.1 with
  | some c =>
    handle_exception env org_table_name dwh_table_name org_row rowSt.1
      (.notNullColumnIsMissing c) rowSt.2
  | none => add_row_to_batch env rowSt.1 dwh_table_name rowSt.2

/-- The system-computed seed of `get_mandatory_cols` (ingestion timestamps,
source-system tag, upload id). -/
def seedCols (env : Env) : Row :=
  [("update_date", .date env.now), ("download_date", .date env.now),
   ("import_date", .date env.now), ("sourcesystem_cd", .str "reuma_v2"),
   ("upload_id", .int 1)]

/-- The catalog rules with both `concept_cd` and `modifier_cd` NULL:
the mandatory rules of a (source table, target table) pair. -/
def mandatoryRules (cat : List CatalogRow) : List CatalogRow :=
  cat.filter (fun r => decide (r.concept_cd = none) && decide (r.modifier_cd = none))

/-- The loop of `get_mandatory_cols` over the mandatory catalog rules:
copy each named source column, failing with `MandatoryFieldMissing` (the
offending source column name) on the first NA value. -/
def mandatoryLoop (org_row : Row) : List CatalogRow → Row → Except String Row
  | [], acc => .ok acc
  | cr :: rest, acc =>
    if isna (getCol org_row cr.column_name) then .error cr.column_name
    else mandatoryLoop org_row rest (rowInsert acc cr.target_column (getCol org_row cr.column_name))

/-- `ProcessController.get_mandatory_cols`. -/
def get_mandatory_cols (env : Env) (org_dwh_tbl_cat : List CatalogRow) (org_row : Row) :
    Except String Row :=
  mandatoryLoop org_row (mandatoryRules org_dwh_tbl_cat) (seedCols env)

/-- `org_table_catalog['target_table'].unique()`: first-appearance order. -/
def dedupFirst : List String → List String
  | [] => []
  | x :: xs => x :: dedupFirst (xs.filter (fun y => decide (y ≠ x)))
termination_by l => l.length
decreasing_by
  simp only [List.length_cons]
  exact Nat.lt_succ_of_le (List.length_filter_le _ _)

/-- The body of the target-table loop of
`ProcessController.process_org_row_into_dwh`: derive the mandatory columns
and dispatch on the target table, or record `MandatoryFieldMissing` and
move on. -/
def processTargetTable (env : Env) (org_table_name : String)
    (org_table_catalog : List CatalogRow) (org_row : Row) (dwh_table_name : String)
    (st : PCState) : Option PCState :=
  let org_dwh_tbl_cat := org_table_catalog.filter (fun r => decide (r.target_table = dwh_table_name))
  match get_mandatory_cols env org_dwh_tbl_cat org_row with
  | .error f =>
    some (handle_exception env org_table_name dwh_table_name org_row []
      (.mandatoryFieldMissing f) st)
  | .ok mandatory_cols =>
    if dwh_table_name = "concept_dimension" then
      some (concept_dimension_process env org_table_name dwh_table_name mandatory_cols org_row st)
    else if dwh_table_name = "patient_dimension" then
      some (patient_dimension_process env org_table_name dwh_table_name mandatory_cols org_row
        org_dwh_tbl_cat st)
    else if dwh_table_name = "observation_fact" then
      observation_fact_process env org_table_name dwh_table_name mandatory_cols org_row
        org_dwh_tbl_cat st
    else
      some st

/-- The target-table loop of `process_org_row_into_dwh`. -/
def processTargetTables (env : Env) (org_table_name : String)
    (org_table_catalog : List CatalogRow) (org_row : Row) :
    List String → PCState → Option PCState
  | [], st => some st
  | t :: rest, st =>
    match processTargetTable env org_table_name org_table_catalog org_row t st with
    | none => none
    | some st => processTargetTables env org_table_name org_table_catalog org_row rest st

/-- `ProcessController.process_org_row_into_dwh`: route one source row to
every target table its catalog rules name. -/
def process_org_row_into_dwh (env : Env) (data_catalog : List CatalogRow)
    (org_table_name : String) (org_row : Row) (st : PCState) : Option PCState :=
  let org_table_catalog := data_catalog.filter (fun r => decide (r.table_name = org_table_name))
  processTargetTables env org_table_name org_table_catalog org_row
    (dedupFirst (org_table_catalog.map (·.target_table))) st

/-- The rows queued so far for warehouse table `t`, in queuing order. -/
def traceOf (st : PCState) (t : String) : List Row :=
  (st.trace.filter (fun p => decide (p.1 = t))).map (·.2)

/-- The dictionary the next translation will consult: the in-memory copy
once loaded, the warehouse contents before that. -/
def effDict (env : Env) (st : PCState) : List (String × String) :=
  st.dwh_dictionary.getD env.db_dictionary

/-- The encounters table the next lookup will consult. -/
def effEnc (env : Env) (st : PCState) : List (Nat × Value) :=
  st.encounters.getD env.db_encounters

/-- Every batch queue is strictly below the flush threshold. -/
def quesBelow (st : PCState) : Prop :=
  ∀ p ∈ st.batch_que, p.2.length < 100

/-- Pure companion of `translateLoop`: the translated row and the final
dictionary as a function of the dictionary the loop starts from (the state
threading of `translateLoop` is proved to refine this). -/
def transRow (env : Env) :
    List (String × String) → List (String × Value) → Row → Row × List (String × String)
  | dict, [], acc => (acc, dict)
  | dict, (key, value) :: rest, acc =>
    match value with
    | .str s =>
      if hasHeb s then
        match lookupDict dict s with
        | some en => transRow env dict rest (rowInsert acc key (.str en))
        | none =>
          transRow env (dict ++ [(s, env.translate s)]) rest
            (rowInsert acc key (.str (env.translate s)))
      else transRow env dict rest (rowInsert acc key value)
    | _ => transRow env dict rest (rowInsert acc key value)

/-- Pure companion of `process_row_by_observation_fact_rules`: the rows it
queues to the target fact table (one on success, none on either failure),
as a function of the dictionary in force when the rule is processed. -/
def obsRuleRows (env : Env) (dwh_table_name : String) (dict : List (String × String))
    (mandatory_cols org_row : Row) (catalog_row : CatalogRow) : List Row :=
  if isna (getCol org_row catalog_row.column_name) then []
  else
    let new_row := rowInsert mandatory_cols catalog_row.target_column
      (getCol org_row catalog_row.column_name)
    let new_row := rowInsert new_row "concept_cd" (optStr catalog_row.concept_cd)
    let new_row := rowInsert new_row "modifier_cd" (optStr catalog_row.modifier_cd)
    let new_row :=
      if (rowFind new_row "tval_char").isSome then rowInsert new_row "valtype_cd" (.str "t")
      else if (rowFind new_row "nval_num").isSome then rowInsert new_row "valtype_cd" (.str "n")
      else new_row
    let tr := (transRow env dict new_row []).1
    match validate_row env dwh_table_name tr with
    | some _ => []
    | none => [fillRow env dwh_table_name tr]

/-- The target-table rows one fan-out rule adds to the queue trace when
processed from state `st`. -/
def stepNewRows (env : Env) (org_table_name dwh_table_name : String)
    (mandatory_cols org_row : Row) (catalog_row : CatalogRow) (st : PCState) : List Row :=
  (traceOf (process_row_by_observation_fact_rules env org_table_name dwh_table_name
      mandatory_cols org_row catalog_row st) dwh_table_name).drop
    (traceOf st dwh_table_name).length

/-- The structured audit row `handle_exception` queues to the `exceptions`
table, with `id` the 1-based log line index it was given. -/
def excRowOf (env : Env) (org_table_name dwh_table_name : String) (new_row : Row)
    (e : PcError) (id : Nat) : Row :=
  let target_col : Option String :=
    match e with
    | .notNullColumnIsMissing c => some c
    | _ => none
  let org_col : Option String :=
    match e with
    | .mandatoryFieldMissing c => some c
    | .originalDataFieldIsMissing c => some c
    | _ => none
  [("log_file_id", .int id),
   ("target_table", .str dwh_table_name),
   ("org_table", .str org_table_name),
   ("target_col", optStr target_col),
   ("org_col", optStr org_col),
   ("row_json", .str (env.row_json new_row))]

/-- Is the value a string containing a Hebrew letter (the only values
`translate_heb_words` replaces)? -/
def isHebStrVal : Value → Bool
  | .str s => hasHeb s
  | _ => false

/-- A small concrete warehouse schema used to evaluate the model on
concrete inputs (an i2b2-style star schema like the one the repository
targets). -/
def testEnv : Env where
  get_columns := fun t =>
    if t = "observation_fact" then
      ["encounter_num", "patient_num", "concept_cd", "modifier_cd", "start_date",
       "nval_num", "tval_char", "valtype_cd", "update_date", "download_date",
       "import_date", "sourcesystem_cd", "upload_id"]
    else if t = "dictionary" then ["he", "en"]
    else if t = "encounters" then ["date", "encounter_num"]
    else if t = "exceptions" then
      ["log_file_id", "target_table", "org_table", "target_col", "org_col", "row_json"]
    else if t = "patient_dimension" then ["patient_num", "sourcesystem_cd"]
    else []
  get_not_null_columns := fun t =>
    if t = "observation_fact" then ["concept_cd", "start_date"]
    else if t = "patient_dimension" then ["patient_num"]
    else []
  translate := fun s => "en" ++ s
  row_json := fun _ => "serialized"
  now := 7
  db_dictionary := []
  db_encounters := []

/-- A schema with a one-column table `t6`, to evaluate row normalization
against a row that carries a key outside the table's column set. -/
def c6Env : Env :=
  { testEnv with get_columns := fun t => if t = "t6" then ["a"] else testEnv.get_columns t }

/-- A catalog rule whose `concept_cd` is present but whose `modifier_cd` is
NULL — per the catalog data model, an ordinary fan-out rule. -/
def c1Rule : CatalogRow :=
  { table_name := "labs", column_name := "val", target_table := "observation_fact",
    target_column := "nval_num", concept_cd := some "c1", modifier_cd := none }

/-- A mandatory catalog rule (both codes NULL) mapping `patient_id` to
`patient_num`. -/
def mandRule : CatalogRow :=
  { table_name := "t_src", column_name := "patient_id", target_table := "patient_dimension",
    target_column := "patient_num", concept_cd := none, modifier_cd := none }

/-- A fan-out catalog rule whose source column `missing_col` will be absent
from the source row. -/
def c3Rule : CatalogRow :=
  { table_name := "labs", column_name := "missing_col", target_table := "observation_fact",
    target_column := "tval_char", concept_cd := some "c0", modifier_cd := some "m0" }

/-- An ordinary fan-out catalog rule with both codes present. -/
def obsRule : CatalogRow :=
  { table_name := "labs", column_name := "val", target_table := "observation_fact",
    target_column := "nval_num", concept_cd := some "c1", modifier_cd := some "m1" }

theorem rowFind_rowInsert_self (r : Row) (k : String) (v : Value) :
    rowFind (rowInsert r k v) k = some v := by
  induction r with
  | nil => simp [rowInsert, rowFind]
  | cons p rest ih =>
    obtain ⟨k', v'⟩ := p
    by_cases h : k' = k
    · subst h
      simp [rowInsert, rowFind]
    · simp only [rowInsert, if_neg h]
      simpa [rowFind, List.find?_cons, h] using ih

theorem rowFind_rowInsert_ne (r : Row) (k k' : String) (v : Value) (h : k' ≠ k) :
    rowFind (rowInsert r k v) k' = rowFind r k' := by
  induction r with
  | nil => simp [rowInsert, rowFind, List.find?, Ne.symm h]
  | cons p rest ih =>
    obtain ⟨k0, v0⟩ := p
    by_cases h0 : k0 = k
    · subst h0
      simp [rowInsert, rowFind, List.find?_cons, Ne.symm h]
    · simp only [rowInsert, if_neg h0]
      by_cases h1 : k0 = k'
      · subst h1
        simp [rowFind, List.find?_cons]
      · simpa [rowFind, List.find?_cons, h1] using ih

theorem mem_rowKeys_iff_isSome (r : Row) (k : String) :
    k ∈ rowKeys r ↔ (rowFind r k).isSome := by
  induction r with
  | nil => simp [rowKeys, rowFind]
  | cons p rest ih =>
    obtain ⟨k0, v0⟩ := p
    by_cases h : k0 = k
    · subst h
      simp [rowKeys, rowFind, List.find?_cons]
    · simpa [rowKeys, rowFind, List.find?_cons, h, Ne.symm h] using ih

theorem rowKeys_rowInsert_none (r : Row) (k : String) (v : Value) (h : rowFind r k = none) :
    rowKeys (rowInsert r k v) = rowKeys r ++ [k] := by
  induction r with
  | nil => simp [rowInsert, rowKeys]
  | cons p rest ih =>
    obtain ⟨k0, v0⟩ := p
    by_cases h0 : k0 = k
    · subst h0
      simp [rowFind, List.find?_cons] at h
    · simp only [rowInsert, if_neg h0, rowKeys, List.map_cons, List.cons_append,
        List.cons.injEq, true_and]
      exact ih (by simpa [rowFind, List.find?_cons, h0] using h)

theorem rowKeys_rowInsert_isSome (r : Row) (k : String) (v : Value)
    (h : (rowFind r k).isSome) : rowKeys (rowInsert r k v) = rowKeys r := by
  induction r with
  | nil => simp [rowFind] at h
  | cons p rest ih =>
    obtain ⟨k0, v0⟩ := p
    by_cases h0 : k0 = k
    · subst h0
      simp [rowInsert, rowKeys]
    · simp only [rowInsert, if_neg h0, rowKeys, List.map_cons, List.cons.injEq, true_and]
      exact ih (by simpa [rowFind, List.find?_cons, h0] using h)

theorem mem_rowKeys_rowInsert (r : Row) (k k' : String) (v : Value) :
    k' ∈ rowKeys (rowInsert r k v) ↔ k' ∈ rowKeys r ∨ k' = k := by
  induction r with
  | nil => simp [rowInsert, rowKeys]
  | cons p rest ih =>
    obtain ⟨k0, v0⟩ := p
    by_cases h0 : k0 = k
    · subst h0
      simp [rowInsert, rowKeys]
      tauto
    · simp only [rowInsert, if_neg h0]
      simp only [rowKeys, List.map_cons, List.mem_cons] at ih ⊢
      rw [ih]
      tauto

theorem nodup_rowKeys_rowInsert (r : Row) (k : String) (v : Value)
    (h : (rowKeys r).Nodup) : (rowKeys (rowInsert r k v)).Nodup := by
  rcases hf : rowFind r k with _ | w
  · rw [rowKeys_rowInsert_none r k v hf]
    refine List.Nodup.append h (List.nodup_singleton k) ?_
    intro a ha hb
    rw [List.mem_singleton] at hb
    subst hb
    rw [mem_rowKeys_iff_isSome, hf] at ha
    simp at ha
  · rw [rowKeys_rowInsert_isSome r k v (by simp [hf])]
    exact h

theorem fillLoop_find (cols : List String) (r : Row) (c : String) :
    rowFind (cols.foldl
      (fun acc col => if (rowFind acc col).isSome then acc else rowInsert acc col .null) r) c =
    if c ∈ cols then some ((rowFind r c).getD .null) else rowFind r c := by
  induction cols generalizing r with
  | nil => simp
  | cons col rest ih =>
    simp only [List.foldl_cons, List.mem_cons]
    by_cases hc : c = col
    · subst hc
      rcases hf : rowFind r c with _ | w
      · rw [if_neg (by simp [hf])]
        rw [ih]
        by_cases hm : c ∈ rest
        · simp [hm, rowFind_rowInsert_self, hf]
        · simp [hm, rowFind_rowInsert_self, hf]
      · rw [if_pos (by simp [hf])]
        rw [ih]
        by_cases hm : c ∈ rest
        · simp [hm, hf]
        · simp [hm, hf]
    · have hstep : rowFind (if (rowFind r col).isSome then r else rowInsert r col .null) c
          = rowFind r c := by
        split
        · rfl
        · exact rowFind_rowInsert_ne r col c .null hc
      rw [ih, hstep]
      simp [hc]

theorem fillRow_find (env : Env) (t : String) (r : Row) (c : String) :
    rowFind (fillRow env t r) c =
      if c ∈ env.get_columns t then some ((rowFind r c).getD .null) else rowFind r c :=
  fillLoop_find (env.get_columns t) r c

theorem fillRow_find_of_isSome (env : Env) (t : String) (r : Row) (c : String)
    (h : (rowFind r c).isSome) : rowFind (fillRow env t r) c = rowFind r c := by
  rw [fillRow_find]
  rcases hf : rowFind r c with _ | w
  · rw [hf] at h
    simp at h
  · split <;> simp

theorem mem_rowKeys_fillLoop (cols : List String) (r : Row) (k : String) :
    k ∈ rowKeys (cols.foldl
      (fun acc col => if (rowFind acc col).isSome then acc else rowInsert acc col .null) r) ↔
    k ∈ rowKeys r ∨ k ∈ cols := by
  induction cols generalizing r with
  | nil => simp
  | cons col rest ih =>
    simp only [List.foldl_cons, List.mem_cons]
    rw [ih]
    have hstep : k ∈ rowKeys (if (rowFind r col).isSome then r else rowInsert r col .null) ↔
        (k ∈ rowKeys r ∨ k = col) := by
      split
      · rename_i hs
        constructor
        · exact fun h => Or.inl h
        · rintro (h | h)
          · exact h
          · subst h
            rw [mem_rowKeys_iff_isSome]
            exact hs
      · exact mem_rowKeys_rowInsert r col k .null
    rw [hstep]
    tauto

theorem mem_rowKeys_fillRow (env : Env) (t : String) (r : Row) (k : String) :
    k ∈ rowKeys (fillRow env t r) ↔ k ∈ rowKeys r ∨ k ∈ env.get_columns t :=
  mem_rowKeys_fillLoop (env.get_columns t) r k

theorem add_row_to_batch_fields (env : Env) (r : Row) (t : String) (st : PCState) :
    (add_row_to_batch env r t st).trace = st.trace ++ [(t, fillRow env t r)] ∧
    (add_row_to_batch env r t st).dwh_dictionary = st.dwh_dictionary ∧
    (add_row_to_batch env r t st).encounters = st.encounters ∧
    (add_row_to_batch env r t st).log_lines = st.log_lines ∧
    (add_row_to_batch env r t st).remote_calls = st.remote_calls := by
  refine ⟨?_, ?_, ?_, ?_, ?_⟩ <;>
    (unfold add_row_to_batch; dsimp only; split <;> rfl)

theorem traceOf_of_trace_append (st : PCState) {st' : PCState} {adds : List (String × Row)}
    (h : st'.trace = st.trace ++ adds) (u : String) :
    traceOf st' u = traceOf st u ++ (adds.filter (fun p => decide (p.1 = u))).map (·.2) := by
  simp [traceOf, h, List.filter_append]

theorem handle_exception_eq (env : Env) (oT dT : String) (org_row new_row : Row)
    (e : PcError) (st : PCState) :
    handle_exception env oT dT org_row new_row e st =
      add_row_to_batch env (excRowOf env oT dT new_row e (st.log_lines + 1)) "exceptions"
        { st with log_lines := st.log_lines + 1 } := by
  cases e <;> rfl

theorem handle_exception_fields (env : Env) (oT dT : String) (org_row new_row : Row)
    (e : PcError) (st : PCState) :
    (handle_exception env oT dT org_row new_row e st).trace =
      st.trace ++ [("exceptions",
        fillRow env "exceptions" (excRowOf env oT dT new_row e (st.log_lines + 1)))] ∧
    (handle_exception env oT dT org_row new_row e st).dwh_dictionary = st.dwh_dictionary ∧
    (handle_exception env oT dT org_row new_row e st).encounters = st.encounters ∧
    (handle_exception env oT dT org_row new_row e st).log_lines = st.log_lines + 1 ∧
    (handle_exception env oT dT org_row new_row e st).remote_calls = st.remote_calls := by
  rw [handle_exception_eq]
  have h := add_row_to_batch_fields env (excRowOf env oT dT new_row e (st.log_lines + 1))
    "exceptions" { st with log_lines := st.log_lines + 1 }
  exact ⟨h.1, h.2.1, h.2.2.1, h.2.2.2.1, h.2.2.2.2⟩

theorem translateLoop_spec (env : Env) (l : List (String × Value)) (acc : Row) (st : PCState) :
    (translateLoop env l acc st).1 = (transRow env (effDict env st) l acc).1 ∧
    effDict env (translateLoop env l acc st).2 = (transRow env (effDict env st) l acc).2 ∧
    (translateLoop env l acc st).2.encounters = st.encounters ∧
    (translateLoop env l acc st).2.log_lines = st.log_lines ∧
    ∃ adds, (translateLoop env l acc st).2.trace = st.trace ++ adds ∧
      ∀ p ∈ adds, p.1 = "dictionary" := by
  induction l generalizing acc st with
  | nil => exact ⟨rfl, rfl, rfl, rfl, [], by simp [translateLoop], by simp⟩
  | cons hd tl ih =>
    obtain ⟨key, value⟩ := hd
    cases value with
    | str s =>
      by_cases hheb : hasHeb s = true
      · rcases hlk : lookupDict (effDict env st) s with _ | en
        · -- dictionary miss: remote call, queue the new pair, extend the dictionary
          have hunfold : translateLoop env ((key, .str s) :: tl) acc st =
              translateLoop env tl (rowInsert acc key (.str (env.translate s)))
                { add_row_to_batch env
                    [("he", .str s), ("en", .str (env.translate s))] "dictionary"
                    { st with
                      dwh_dictionary := some (effDict env st),
                      remote_calls := st.remote_calls + 1 } with
                  dwh_dictionary := some (effDict env st ++ [(s, env.translate s)]) } := by
            simp only [translateLoop, hheb, if_true]
            simp only [effDict] at hlk ⊢
            simp [hlk]
          have htr : transRow env (effDict env st) ((key, .str s) :: tl) acc =
              transRow env (effDict env st ++ [(s, env.translate s)]) tl
                (rowInsert acc key (.str (env.translate s))) := by
            simp only [transRow, hheb, if_true, hlk]
          rw [hunfold, htr]
          set stMid : PCState :=
            { add_row_to_batch env
                [("he", .str s), ("en", .str (env.translate s))] "dictionary"
                { st with
                  dwh_dictionary := some (effDict env st),
                  remote_calls := st.remote_calls + 1 } with
              dwh_dictionary := some (effDict env st ++ [(s, env.translate s)]) } with hstMid
          have hbatch := add_row_to_batch_fields env
            [("he", .str s), ("en", .str (env.translate s))] "dictionary"
            { st with
              dwh_dictionary := some (effDict env st),
              remote_calls := st.remote_calls + 1 }
          have hdict : effDict env stMid = effDict env st ++ [(s, env.translate s)] := by
            simp [hstMid, effDict]
          have henc : stMid.encounters = st.encounters := by
            rw [hstMid]
            exact hbatch.2.2.1
          have hlog : stMid.log_lines = st.log_lines := by
            rw [hstMid]
            exact hbatch.2.2.2.1
          have htrace : stMid.trace = st.trace ++
              [("dictionary", fillRow env "dictionary"
                [("he", .str s), ("en", .str (env.translate s))])] := by
            rw [hstMid]
            exact hbatch.1
          obtain ⟨ih1, ih2, ih3, ih4, adds, ih5, ih6⟩ :=
            ih (rowInsert acc key (.str (env.translate s))) stMid
          rw [hdict] at ih1 ih2
          refine ⟨ih1, ih2, by rw [ih3, henc], by rw [ih4, hlog], ?_⟩
          refine ⟨("dictionary", fillRow env "dictionary"
            [("he", .str s), ("en", .str (env.translate s))]) :: adds, ?_, ?_⟩
          · rw [ih5, htrace]
            simp
          · intro p hp
            rcases List.mem_cons.mp hp with h | h
            · rw [h]
            · exact ih6 p h
        · -- dictionary hit: substitute the cached translation
          have hunfold : translateLoop env ((key, .str s) :: tl) acc st =
              translateLoop env tl (rowInsert acc key (.str en))
                { st with dwh_dictionary := some (effDict env st) } := by
            simp only [translateLoop, hheb, if_true]
            simp only [effDict] at hlk ⊢
            simp [hlk]
          have htr : transRow env (effDict env st) ((key, .str s) :: tl) acc =
              transRow env (effDict env st) tl (rowInsert acc key (.str en)) := by
            simp only [transRow, hheb, if_true, hlk]
          rw [hunfold, htr]
          have hdict : effDict env { st with dwh_dictionary := some (effDict env st) } =
              effDict env st := by
            simp [effDict]
          obtain ⟨ih1, ih2, ih3, ih4, adds, ih5, ih6⟩ :=
            ih (rowInsert acc key (.str en)) { st with dwh_dictionary := some (effDict env st) }
          rw [hdict] at ih1 ih2
          exact ⟨ih1, ih2, ih3, ih4, adds, ih5, ih6⟩
      · simp only [translateLoop, transRow, hheb, if_false, Bool.false_eq_true]
        exact ih _ _
    | null =>
      simp only [translateLoop, transRow]
      exact ih _ _
    | int n =>
      simp only [translateLoop, transRow]
      exact ih _ _
    | date d =>
      simp only [translateLoop, transRow]
      exact ih _ _
    | nan =>
      simp only [translateLoop, transRow]
      exact ih _ _

theorem obs_step_isna (env : Env) (oT dT : String) (mc org_row : Row) (cr : CatalogRow)
    (st : PCState) (h : isna (getCol org_row cr.column_name) = true) :
    process_row_by_observation_fact_rules env oT dT mc org_row cr st =
      handle_exception env oT dT org_row mc (.originalDataFieldIsMissing cr.column_name) st := by
  unfold process_row_by_observation_fact_rules
  rw [if_pos h]

theorem obs_emit_spec (env : Env) (oT dT : String) (org_row nr : Row) (st : PCState)
    (h1 : dT ≠ "exceptions") (h2 : dT ≠ "dictionary") :
    (match validate_row env dT (translate_heb_words env nr st).1 with
      | some c => handle_exception env oT dT org_row (translate_heb_words env nr st).1
          (.notNullColumnIsMissing c) (translate_heb_words env nr st).2
      | none => add_row_to_batch env (translate_heb_words env nr st).1 dT
          (translate_heb_words env nr st).2).encounters = st.encounters ∧
    ∃ adds, (match validate_row env dT (translate_heb_words env nr st).1 with
      | some c => handle_exception env oT dT org_row (translate_heb_words env nr st).1
          (.notNullColumnIsMissing c) (translate_heb_words env nr st).2
      | none => add_row_to_batch env (translate_heb_words env nr st).1 dT
          (translate_heb_words env nr st).2).trace = st.trace ++ adds ∧
      (∀ p ∈ adds, p.1 = dT ∨ p.1 = "dictionary" ∨ p.1 = "exceptions") ∧
      (adds.filter (fun p => decide (p.1 = dT))).map (·.2) =
        (match validate_row env dT ((transRow env (effDict env st) nr []).1) with
         | some _ => ([] : List Row)
         | none => [fillRow env dT ((transRow env (effDict env st) nr []).1)]) := by
  simp only [translate_heb_words]
  obtain ⟨t1, t2, t3, t4, D, t5, t6⟩ := translateLoop_spec env nr [] st
  have hD : ∀ p ∈ D, ¬(decide (p.1 = dT) = true) := by
    intro p hp
    simp only [decide_eq_true_eq]
    rw [t6 p hp]
    exact Ne.symm h2
  rcases hv : validate_row env dT (translateLoop env nr [] st).1 with _ | c
  · -- validation passes: one row queued to the target table
    rw [t1] at hv
    have hb := add_row_to_batch_fields env (translateLoop env nr [] st).1 dT
      (translateLoop env nr [] st).2
    refine ⟨by rw [hb.2.2.1, t3], D ++ [(dT, fillRow env dT (translateLoop env nr [] st).1)],
      ?_, ?_, ?_⟩
    · rw [hb.1, t5, List.append_assoc]
    · intro p hp
      rcases List.mem_append.mp hp with h | h
      · exact Or.inr (Or.inl (t6 p h))
      · rw [List.mem_singleton.mp h]
        exact Or.inl rfl
    · rw [List.filter_append, List.filter_eq_nil_iff.mpr hD, hv]
      simp [t1]
  · -- validation fails: one exceptions row recorded
    rw [t1] at hv
    have hb := handle_exception_fields env oT dT org_row (translateLoop env nr [] st).1
      (.notNullColumnIsMissing c) (translateLoop env nr [] st).2
    refine ⟨by rw [hb.2.2.1, t3],
      D ++ [("exceptions", fillRow env "exceptions"
        (excRowOf env oT dT (translateLoop env nr [] st).1 (.notNullColumnIsMissing c)
          ((translateLoop env nr [] st).2.log_lines + 1)))], ?_, ?_, ?_⟩
    · rw [hb.1, t5, List.append_assoc]
    · intro p hp
      rcases List.mem_append.mp hp with h | h
      · exact Or.inr (Or.inl (t6 p h))
      · rw [List.mem_singleton.mp h]
        exact Or.inr (Or.inr rfl)
    · rw [List.filter_append, List.filter_eq_nil_iff.mpr hD, hv]
      simp [Ne.symm h1]

theorem obs_step_spec (env : Env) (oT dT : String) (mc org_row : Row) (cr : CatalogRow)
    (st : PCState) (h1 : dT ≠ "exceptions") (h2 : dT ≠ "dictionary") :
    (process_row_by_observation_fact_rules env oT dT mc org_row cr st).encounters
        = st.encounters ∧
    ∃ adds, (process_row_by_observation_fact_rules env oT dT mc org_row cr st).trace
        = st.trace ++ adds ∧
      (∀ p ∈ adds, p.1 = dT ∨ p.1 = "dictionary" ∨ p.1 = "exceptions") ∧
      (adds.filter (fun p => decide (p.1 = dT))).map (·.2) =
        obsRuleRows env dT (effDict env st) mc org_row cr := by
  by_cases h : isna (getCol org_row cr.column_name) = true
  · rw [obs_step_isna env oT dT mc org_row cr st h]
    have hf := handle_exception_fields env oT dT org_row mc
      (.originalDataFieldIsMissing cr.column_name) st
    refine ⟨hf.2.2.1,
      [("exceptions", fillRow env "exceptions"
        (excRowOf env oT dT mc (.originalDataFieldIsMissing cr.column_name)
          (st.log_lines + 1)))], hf.1, ?_, ?_⟩
    · intro p hp
      rw [List.mem_singleton.mp hp]
      exact Or.inr (Or.inr rfl)
    · rw [obsRuleRows, if_pos h]
      simp [Ne.symm h1]
  · unfold process_row_by_observation_fact_rules obsRuleRows
    rw [if_neg h, if_neg h]
    dsimp only
    exact obs_emit_spec env oT dT org_row _ st h1 h2

theorem obs_step_traceOf (env : Env) (oT dT : String) (mc org_row : Row) (cr : CatalogRow)
    (st : PCState) (h1 : dT ≠ "exceptions") (h2 : dT ≠ "dictionary") :
    traceOf (process_row_by_observation_fact_rules env oT dT mc org_row cr st) dT =
      traceOf st dT ++ obsRuleRows env dT (effDict env st) mc org_row cr := by
  obtain ⟨-, adds, htr, -, hfil⟩ := obs_step_spec env oT dT mc org_row cr st h1 h2
  rw [traceOf_of_trace_append st htr dT, hfil]

theorem obs_step_effDict_isna (env : Env) (oT dT : String) (mc org_row : Row) (cr : CatalogRow)
    (st : PCState) (h : isna (getCol org_row cr.column_name) = true) :
    effDict env (process_row_by_observation_fact_rules env oT dT mc org_row cr st) =
      effDict env st := by
  rw [obs_step_isna env oT dT mc org_row cr st h]
  have hf := handle_exception_fields env oT dT org_row mc
    (.originalDataFieldIsMissing cr.column_name) st
  simp [effDict, hf.2.1]

theorem obs_fold_spec (env : Env) (oT dT : String) (mc org_row : Row)
    (rules : List CatalogRow) (st : PCState) (h1 : dT ≠ "exceptions") (h2 : dT ≠ "dictionary") :
    (rules.foldl (fun st cr =>
      process_row_by_observation_fact_rules env oT dT mc org_row cr st) st).encounters
        = st.encounters ∧
    ∃ adds, (rules.foldl (fun st cr =>
        process_row_by_observation_fact_rules env oT dT mc org_row cr st) st).trace
        = st.trace ++ adds ∧
      (∀ p ∈ adds, p.1 = dT ∨ p.1 = "dictionary" ∨ p.1 = "exceptions") ∧
      (∀ row ∈ (adds.filter (fun p => decide (p.1 = dT))).map (·.2),
        ∃ cr ∈ rules, ∃ dict, row ∈ obsRuleRows env dT dict mc org_row cr) := by
  induction rules generalizing st with
  | nil => exact ⟨rfl, [], by simp, by simp, by simp⟩
  | cons cr rest ih =>
    simp only [List.foldl_cons]
    obtain ⟨e1, A, a1, a2, a3⟩ := obs_step_spec env oT dT mc org_row cr st h1 h2
    obtain ⟨e2, B, b1, b2, b3⟩ :=
      ih (process_row_by_observation_fact_rules env oT dT mc org_row cr st)
    refine ⟨by rw [e2, e1], A ++ B, ?_, ?_, ?_⟩
    · rw [b1, a1, List.append_assoc]
    · intro p hp
      rcases List.mem_append.mp hp with h | h
      · exact a2 p h
      · exact b2 p h
    · intro row hrow
      rw [List.filter_append, List.map_append] at hrow
      rcases List.mem_append.mp hrow with h | h
      · rw [a3] at h
        exact ⟨cr, List.mem_cons_self cr rest, effDict env st, h⟩
      · obtain ⟨cr2, hcr2, dict, hd⟩ := b3 row h
        exact ⟨cr2, List.mem_cons_of_mem cr hcr2, dict, hd⟩

theorem transRow_frame (env : Env) (dict : List (String × String)) (l : List (String × Value))
    (acc : Row) (hnd : (l.map (·.1)).Nodup) (hdisj : ∀ k ∈ l.map (·.1), rowFind acc k = none) :
    rowKeys (transRow env dict l acc).1 = rowKeys acc ++ l.map (·.1) ∧
    (∀ k v, rowFind acc k = some v → rowFind (transRow env dict l acc).1 k = some v) ∧
    (∀ k v, rowFind l k = some v → isHebStrVal v = false →
      rowFind (transRow env dict l acc).1 k = some v) := by
  induction l generalizing acc dict with
  | nil =>
    refine ⟨by simp [transRow, rowKeys], fun k v h => by simpa [transRow] using h, ?_⟩
    intro k v h
    simp [rowFind] at h
  | cons hd tl ih =>
    obtain ⟨key, value⟩ := hd
    have hkey : rowFind acc key = none := hdisj key (by simp)
    have hnd' : (tl.map (·.1)).Nodup := (List.nodup_cons.mp hnd).2
    have hknot : key ∉ tl.map (·.1) := (List.nodup_cons.mp hnd).1
    -- one uniform argument for each way the head value can be rewritten
    have main : ∀ (d2 : List (String × String)) (v' : Value),
        (isHebStrVal value = false → v' = value) →
        rowKeys (transRow env d2 tl (rowInsert acc key v')).1 =
            rowKeys acc ++ (key :: tl.map (·.1)) ∧
        (∀ k v, rowFind acc k = some v →
          rowFind (transRow env d2 tl (rowInsert acc key v')).1 k = some v) ∧
        (∀ k v, rowFind ((key, value) :: tl) k = some v → isHebStrVal v = false →
          rowFind (transRow env d2 tl (rowInsert acc key v')).1 k = some v) := by
      intro d2 v' hv'
      have hdisj' : ∀ k ∈ tl.map (·.1), rowFind (rowInsert acc key v') k = none := by
        intro k hk
        have hne : k ≠ key := fun h => hknot (h ▸ hk)
        rw [rowFind_rowInsert_ne acc key k v' hne]
        exact hdisj k (by simp [hk])
      obtain ⟨ih1, ih2, ih3⟩ := ih d2 (rowInsert acc key v') hnd' hdisj'
      refine ⟨?_, ?_, ?_⟩
      · rw [ih1, rowKeys_rowInsert_none acc key v' hkey]
        simp
      · intro k v h
        have hne : k ≠ key := by
          intro he
          rw [he, hkey] at h
          exact Option.noConfusion h
        exact ih2 k v (by rw [rowFind_rowInsert_ne acc key k v' hne]; exact h)
      · intro k v h hheb
        by_cases hk : k = key
        · subst hk
          have hv : v = value := by
            simp [rowFind, List.find?_cons] at h
            exact h.symm
          subst hv
          have hvv : v' = v := hv' hheb
          rw [hvv] at ih2 ⊢
          exact ih2 k v (rowFind_rowInsert_self acc k v)
        · have h' : rowFind tl k = some v := by
            simpa [rowFind, List.find?_cons, Ne.symm hk] using h
          exact ih3 k v h' hheb
    cases value with
    | str s =>
      by_cases hheb : hasHeb s = true
      · rcases hlk : lookupDict dict s with _ | en
        · simp only [transRow, hheb, if_true, hlk, List.map_cons]
          refine main (dict ++ [(s, env.translate s)]) (.str (env.translate s)) ?_
          intro hf
          rw [isHebStrVal, hheb] at hf
          exact absurd hf (by simp)
        · simp only [transRow, hheb, if_true, hlk, List.map_cons]
          refine main dict (.str en) ?_
          intro hf
          rw [isHebStrVal, hheb] at hf
          exact absurd hf (by simp)
      · simp only [transRow, hheb, if_false, Bool.false_eq_true, List.map_cons]
        exact main dict (.str s) (fun _ => rfl)
    | null =>
      simp only [transRow, List.map_cons]
      exact main dict .null (fun _ => rfl)
    | int n =>
      simp only [transRow, List.map_cons]
      exact main dict (.int n) (fun _ => rfl)
    | date d =>
      simp only [transRow, List.map_cons]
      exact main dict (.date d) (fun _ => rfl)
    | nan =>
      simp only [transRow, List.map_cons]
      exact main dict .nan (fun _ => rfl)

theorem obsRuleRows_enc (env : Env) (dT : String) (dict : List (String × String))
    (mc org_row : Row) (cr : CatalogRow) (num : Value)
    (hmc : rowFind mc "encounter_num" = some num)
    (hnum : isHebStrVal num = false)
    (hnd : (rowKeys mc).Nodup)
    (htc : cr.target_column ≠ "encounter_num") :
    ∀ row ∈ obsRuleRows env dT dict mc org_row cr, rowFind row "encounter_num" = some num := by
  have key : ∀ nr : Row, rowFind nr "encounter_num" = some num → (rowKeys nr).Nodup →
      ∀ row ∈ (match validate_row env dT ((transRow env dict nr []).1) with
               | some _ => ([] : List Row)
               | none => [fillRow env dT ((transRow env dict nr []).1)]),
        rowFind row "encounter_num" = some num := by
    intro nr hfind hnodup row hrow
    split at hrow
    · simp at hrow
    · rw [List.mem_singleton] at hrow
      subst hrow
      have hframe := (transRow_frame env dict nr [] (by simpa [rowKeys] using hnodup)
        (by intro k hk; simp [rowFind])).2.2
      have h2 : rowFind ((transRow env dict nr []).1) "encounter_num" = some num :=
        hframe "encounter_num" num hfind hnum
      rw [fillRow_find_of_isSome env dT _ "encounter_num" (by simp [h2]), h2]
  intro row hrow
  unfold obsRuleRows at hrow
  by_cases h : isna (getCol org_row cr.column_name) = true
  · rw [if_pos h] at hrow
    simp at hrow
  · rw [if_neg h] at hrow
    dsimp only at hrow
    refine key _ ?_ ?_ row hrow
    · have base : rowFind (rowInsert (rowInsert
          (rowInsert mc cr.target_column (getCol org_row cr.column_name))
          "concept_cd" (optStr cr.concept_cd)) "modifier_cd" (optStr cr.modifier_cd))
          "encounter_num" = some num := by
        rw [rowFind_rowInsert_ne _ _ _ _ (by decide : ("encounter_num" : String) ≠ "modifier_cd"),
          rowFind_rowInsert_ne _ _ _ _ (by decide : ("encounter_num" : String) ≠ "concept_cd"),
          rowFind_rowInsert_ne _ _ _ _ (Ne.symm htc)]
        exact hmc
      split
      · rw [rowFind_rowInsert_ne _ _ _ _
          (by decide : ("encounter_num" : String) ≠ "valtype_cd")]
        exact base
      · split
        · rw [rowFind_rowInsert_ne _ _ _ _
            (by decide : ("encounter_num" : String) ≠ "valtype_cd")]
          exact base
        · exact base
    · have base : (rowKeys (rowInsert (rowInsert
          (rowInsert mc cr.target_column (getCol org_row cr.column_name))
          "concept_cd" (optStr cr.concept_cd)) "modifier_cd" (optStr cr.modifier_cd))).Nodup :=
        nodup_rowKeys_rowInsert _ _ _ (nodup_rowKeys_rowInsert _ _ _
          (nodup_rowKeys_rowInsert _ _ _ hnd))
      split
      · exact nodup_rowKeys_rowInsert _ _ _ base
      · split
        · exact nodup_rowKeys_rowInsert _ _ _ base
        · exact base

theorem add_encounter_num_miss (env : Env) (mc : Row) (st : PCState) (d : Nat)
    (hsd : rowFind mc "start_date" = some (.date d))
    (hmiss : (effEnc env st).find? (fun p => p.1 = d) = none) :
    add_encounter_num env mc st = some
      (rowInsert mc "encounter_num" (encMaxPlus1 (effEnc env st)),
       { add_row_to_batch env
           [("date", .date d), ("encounter_num", encMaxPlus1 (effEnc env st))] "encounters"
           { st with encounters := some (effEnc env st) } with
         encounters := some (effEnc env st ++ [(d, encMaxPlus1 (effEnc env st))]) }) := by
  unfold add_encounter_num
  simp only [effEnc] at hmiss ⊢
  simp only [Option.getD_some, hsd, hmiss]

theorem add_encounter_num_hit (env : Env) (mc : Row) (st : PCState) (d : Nat)
    (p : Nat × Value) (hsd : rowFind mc "start_date" = some (.date d))
    (hhit : (effEnc env st).find? (fun q => q.1 = d) = some p) :
    add_encounter_num env mc st = some
      (rowInsert mc "encounter_num" p.2, { st with encounters := some (effEnc env st) }) := by
  unfold add_encounter_num
  simp only [effEnc] at hhit ⊢
  simp only [Option.getD_some, hsd, hhit]

theorem find?_first {α : Type} (p : α → Bool) (l : List α) (a : α) (h : l.find? p = some a) :
    ∃ pre post, l = pre ++ a :: post ∧ (∀ b ∈ pre, p b = false) ∧ p a = true := by
  induction l with
  | nil => simp at h
  | cons x xs ih =>
    cases hx : p x with
    | false =>
      rw [List.find?_cons_of_neg _ (by simp [hx])] at h
      obtain ⟨pre, post, h1, h2, h3⟩ := ih h
      refine ⟨x :: pre, post, by rw [h1, List.cons_append], ?_, h3⟩
      intro b hb
      rcases List.mem_cons.mp hb with hb | hb
      · rw [hb]
        exact hx
      · exact h2 b hb
    | true =>
      rw [List.find?_cons_of_pos _ hx] at h
      cases h
      exact ⟨[], xs, rfl, by simp, hx⟩

theorem lookupDict_append_self (d : List (String × String)) (w e : String)
    (h : lookupDict d w = none) : lookupDict (d ++ [(w, e)]) w = some e := by
  induction d with
  | nil => simp [lookupDict]
  | cons p rest ih =>
    unfold lookupDict at h ⊢
    by_cases hp : p.1 = w
    · rw [List.find?_cons_of_pos _ (by simp [hp])] at h
      simp at h
    · rw [List.cons_append, List.find?_cons_of_neg _ (by simp [hp])] at *
      exact ih h

theorem translate_single_hit (env : Env) (k w en : String) (st : PCState)
    (hheb : hasHeb w = true) (hlk : lookupDict (effDict env st) w = some en) :
    translate_heb_words env [(k, .str w)] st =
      ([(k, .str en)], { st with dwh_dictionary := some (effDict env st) }) := by
  simp only [translate_heb_words, translateLoop, hheb, if_true]
  simp only [effDict] at hlk ⊢
  simp only [Option.getD_some, hlk]
  rfl

theorem translate_single_miss (env : Env) (k w : String) (st : PCState)
    (hheb : hasHeb w = true) (hlk : lookupDict (effDict env st) w = none) :
    translate_heb_words env [(k, .str w)] st =
      ([(k, .str (env.translate w))],
       { add_row_to_batch env [("he", .str w), ("en", .str (env.translate w))] "dictionary"
           { st with
             dwh_dictionary := some (effDict env st),
             remote_calls := st.remote_calls + 1 } with
         dwh_dictionary := some (effDict env st ++ [(w, env.translate w)]) }) := by
  simp only [translate_heb_words, translateLoop, hheb, if_true]
  simp only [effDict] at hlk ⊢
  simp only [Option.getD_some, hlk]
  rfl

theorem mandatoryLoop_fails (org_row : Row) (l : List CatalogRow) (acc : Row)
    (h : ∃ r ∈ l, isna (getCol org_row r.column_name) = true) :
    ∃ f, mandatoryLoop org_row l acc = .error f := by
  induction l generalizing acc with
  | nil => simp at h
  | cons cr rest ih =>
    unfold mandatoryLoop
    by_cases hna : isna (getCol org_row cr.column_name) = true
    · rw [if_pos hna]
      exact ⟨cr.column_name, rfl⟩
    · rw [if_neg hna]
      refine ih _ ?_
      obtain ⟨r, hr, hrna⟩ := h
      rcases List.mem_cons.mp hr with h0 | h0
      · subst h0
        exact absurd hrna hna
      · exact ⟨r, h0, hrna⟩

theorem mandatoryLoop_error (org_row : Row) (l : List CatalogRow) (acc : Row) (f : String)
    (h : mandatoryLoop org_row l acc = .error f) :
    ∃ r ∈ l, r.column_name = f ∧ isna (getCol org_row f) = true := by
  induction l generalizing acc with
  | nil => simp [mandatoryLoop] at h
  | cons cr rest ih =>
    unfold mandatoryLoop at h
    split at h
    · rename_i hna
      rw [Except.error.injEq] at h
      subst h
      exact ⟨cr, by simp, rfl, hna⟩
    · obtain ⟨r, hr, h1, h2⟩ := ih _ h
      exact ⟨r, List.mem_cons_of_mem cr hr, h1, h2⟩

theorem mem_queSet (q : List (String × List Row)) (t : String) (rows : List Row)
    (p : String × List Row) (hp : p ∈ queSet q t rows) : p.2 = rows ∨ p ∈ q := by
  induction q with
  | nil =>
    unfold queSet at hp
    rw [List.mem_singleton] at hp
    subst hp
    exact Or.inl rfl
  | cons q0 rest ih =>
    obtain ⟨t0, rows0⟩ := q0
    unfold queSet at hp
    split at hp
    · rcases List.mem_cons.mp hp with h | h
      · subst h
        exact Or.inl rfl
      · exact Or.inr (List.mem_cons_of_mem _ h)
    · rcases List.mem_cons.mp hp with h | h
      · subst h
        exact Or.inr (List.mem_cons_self _ _)
      · rcases ih h with h2 | h2
        · exact Or.inl h2
        · exact Or.inr (List.mem_cons_of_mem _ h2)

theorem isHebStrVal_encMaxPlus1 (e : List (Nat × Value)) :
    isHebStrVal (encMaxPlus1 e) = false := by
  unfold encMaxPlus1
  split <;> rfl

theorem obs_fold2_spec (env : Env) (oT dT : String) (mc org_row : Row)
    (rules1 rules2 : List CatalogRow) (st : PCState)
    (h1 : dT ≠ "exceptions") (h2 : dT ≠ "dictionary") :
    ∃ adds, (rules2.foldl (fun st cr =>
        process_row_by_observation_fact_rules env oT dT mc org_row cr st)
        (rules1.foldl (fun st cr =>
          process_row_by_observation_fact_rules env oT dT mc org_row cr st) st)).trace
        = st.trace ++ adds ∧
      (∀ p ∈ adds, p.1 = dT ∨ p.1 = "dictionary" ∨ p.1 = "exceptions") ∧
      (∀ row ∈ (adds.filter (fun p => decide (p.1 = dT))).map (·.2),
        ∃ cr, (cr ∈ rules1 ∨ cr ∈ rules2) ∧
          ∃ dict, row ∈ obsRuleRows env dT dict mc org_row cr) := by
  obtain ⟨-, A, a1, a2, a3⟩ := obs_fold_spec env oT dT mc org_row rules1 st h1 h2
  obtain ⟨-, B, b1, b2, b3⟩ := obs_fold_spec env oT dT mc org_row rules2
    (rules1.foldl (fun st cr =>
      process_row_by_observation_fact_rules env oT dT mc org_row cr st) st) h1 h2
  refine ⟨A ++ B, by rw [b1, a1, List.append_assoc], ?_, ?_⟩
  · intro p hp
    rcases List.mem_append.mp hp with h | h
    · exact a2 p h
    · exact b2 p h
  · intro row hrow
    rw [List.filter_append, List.map_append] at hrow
    rcases List.mem_append.mp hrow with h | h
    · obtain ⟨cr, hcr, dict, hd⟩ := a3 row h
      exact ⟨cr, Or.inl hcr, dict, hd⟩
    · obtain ⟨cr, hcr, dict, hd⟩ := b3 row h
      exact ⟨cr, Or.inr hcr, dict, hd⟩

/-- C7: for every assembled target row and target table, `validate_row`
succeeds iff every NOT-NULL column reported by the storage collaborator for
that table is present in the row with a truthy value; otherwise it fails
with `NotNullColumnIsMissing` naming the first column (in reported order)
that is absent or falsy — and falsy includes the empty string and numeric
zero. -/
theorem validate_row_iff_not_null (env : Env) (T : String) (row : Row) :
    (validate_row env T row = none ↔
      ∀ c ∈ env.get_not_null_columns T, ∃ v, rowFind row c = some v ∧ truthy v = true) ∧
    (∀ c, validate_row env T row = some c →
      ∃ pre post, env.get_not_null_columns T = pre ++ c :: post ∧
        (∀ c2 ∈ pre, ∃ v, rowFind row c2 = some v ∧ truthy v = true) ∧
        (rowFind row c = none ∨ ∃ v, rowFind row c = some v ∧ truthy v = false)) ∧
    truthy (.str "") = false ∧ truthy (.int 0) = false ∧ truthy .null = false := by
  have hbad : ∀ c, ((match rowFind row c with
      | none => true
      | some v => !truthy v) = false) ↔ ∃ v, rowFind row c = some v ∧ truthy v = true := by
    intro c
    rcases hf : rowFind row c with _ | v
    · simp
    · simp [hf]
  refine ⟨?_, ?_, by decide, by decide, by decide⟩
  · rw [validate_row, List.find?_eq_none]
    constructor
    · intro h c hc
      exact (hbad c).mp (by simpa using h c hc)
    · intro h c hc
      simp only [Bool.not_eq_true]
      exact (hbad c).mpr (h c hc)
  · intro c hc
    obtain ⟨pre, post, h1, h2, h3⟩ := find?_first _ _ _ hc
    refine ⟨pre, post, h1, fun c2 hc2 => (hbad c2).mp (h2 c2 hc2), ?_⟩
    rcases hf : rowFind row c with _ | v
    · exact Or.inl rfl
    · refine Or.inr ⟨v, rfl, ?_⟩
      rw [hf] at h3
      simpa using h3

/-- C7 witness: the validator facts instantiated at a concrete table and
row. -/
theorem validate_row_iff_not_null_witness :
    (validate_row testEnv "observation_fact" [("concept_cd", .int 0)] = none ↔
      ∀ c ∈ testEnv.get_not_null_columns "observation_fact",
        ∃ v, rowFind [("concept_cd", .int 0)] c = some v ∧ truthy v = true) ∧
    (∀ c, validate_row testEnv "observation_fact" [("concept_cd", .int 0)] = some c →
      ∃ pre post, testEnv.get_not_null_columns "observation_fact" = pre ++ c :: post ∧
        (∀ c2 ∈ pre, ∃ v, rowFind [("concept_cd", .int 0)] c2 = some v ∧ truthy v = true) ∧
        (rowFind [("concept_cd", .int 0)] c = none ∨
          ∃ v, rowFind [("concept_cd", .int 0)] c = some v ∧ truthy v = false)) ∧
    truthy (.str "") = false ∧ truthy (.int 0) = false ∧ truthy .null = false :=
  validate_row_iff_not_null testEnv "observation_fact" [("concept_cd", .int 0)]

/-- C9: `translate_heb_words` returns a row with exactly the keys of its
input (even in the same order), and every value that is not a string
containing a Hebrew letter is passed through unchanged. -/
theorem translate_heb_words_frame (env : Env) (row : Row) (st : PCState)
    (hnd : (rowKeys row).Nodup) :
    rowKeys (translate_heb_words env row st).1 = rowKeys row ∧
    ∀ k v, rowFind row k = some v → isHebStrVal v = false →
      rowFind (translate_heb_words env row st).1 k = some v := by
  have t1 := (translateLoop_spec env row [] st).1
  obtain ⟨f1, f2, f3⟩ := transRow_frame env (effDict env st) row []
    (by simpa [rowKeys] using hnd) (by intro k hk; simp [rowFind])
  constructor
  · rw [translate_heb_words, t1, f1]
    simp [rowKeys]
  · intro k v h hheb
    rw [translate_heb_words, t1]
    exact f3 k v h hheb

/-- C9 witness: a concrete row whose non-Hebrew values survive translation
unchanged, with the key list preserved. -/
theorem translate_heb_words_frame_witness :
    rowKeys (translate_heb_words testEnv [("a", .int 2), ("b", .str "x")] initState).1 =
      rowKeys [("a", .int 2), ("b", .str "x")] ∧
    ∀ k v, rowFind [("a", .int 2), ("b", .str "x")] k = some v → isHebStrVal v = false →
      rowFind (translate_heb_words testEnv [("a", .int 2), ("b", .str "x")] initState).1 k
        = some v :=
  translate_heb_words_frame testEnv [("a", .int 2), ("b", .str "x")] initState (by decide)

/-- C8: translating the same Hebrew text twice in one run calls the remote
service at most once in total and never on the second call; the second
translation is served from the in-memory dictionary, yields the same
result, and queues nothing new (the trace is unchanged). -/
theorem translate_idempotent (env : Env) (k k2 w : String) (st : PCState)
    (hheb : hasHeb w = true) :
    (translate_heb_words env [(k2, .str w)]
        (translate_heb_words env [(k, .str w)] st).2).2.remote_calls ≤ st.remote_calls + 1 ∧
    (translate_heb_words env [(k2, .str w)]
        (translate_heb_words env [(k, .str w)] st).2).2.remote_calls =
      (translate_heb_words env [(k, .str w)] st).2.remote_calls ∧
    rowFind (translate_heb_words env [(k2, .str w)]
        (translate_heb_words env [(k, .str w)] st).2).1 k2 =
      rowFind (translate_heb_words env [(k, .str w)] st).1 k ∧
    (translate_heb_words env [(k2, .str w)]
        (translate_heb_words env [(k, .str w)] st).2).2.trace =
      (translate_heb_words env [(k, .str w)] st).2.trace := by
  rcases hlk : lookupDict (effDict env st) w with _ | en
  · -- first call misses and stores (w, translate w); second call hits it
    have h1 := translate_single_miss env k w st hheb hlk
    have hd1 : effDict env
        { add_row_to_batch env [("he", .str w), ("en", .str (env.translate w))] "dictionary"
            { st with
              dwh_dictionary := some (effDict env st),
              remote_calls := st.remote_calls + 1 } with
          dwh_dictionary := some (effDict env st ++ [(w, env.translate w)]) } =
        effDict env st ++ [(w, env.translate w)] := by
      simp [effDict]
    have hr1 : (add_row_to_batch env [("he", .str w), ("en", .str (env.translate w))]
        "dictionary"
        { st with
          dwh_dictionary := some (effDict env st),
          remote_calls := st.remote_calls + 1 }).remote_calls = st.remote_calls + 1 :=
      (add_row_to_batch_fields env _ "dictionary" _).2.2.2.2
    have h2 := translate_single_hit env k2 w (env.translate w) _ hheb
      (by rw [hd1]; exact lookupDict_append_self (effDict env st) w (env.translate w) hlk)
    rw [h1, h2]
    refine ⟨by simp [hr1], by simp, ?_, by simp⟩
    simp [rowFind]
  · -- both calls hit the dictionary
    have h1 := translate_single_hit env k w en st hheb hlk
    have hd1 : effDict env { st with dwh_dictionary := some (effDict env st) } =
        effDict env st := by
      simp [effDict]
    have h2 := translate_single_hit env k2 w en
      { st with dwh_dictionary := some (effDict env st) } hheb (by rw [hd1]; exact hlk)
    rw [h1, h2]
    refine ⟨by simp, by simp, ?_, by simp⟩
    simp [rowFind]

/-- C8 witness: a concrete Hebrew word translated twice from the empty
initial state. -/
theorem translate_idempotent_witness :
    (translate_heb_words testEnv [("k2", .str "שלום")]
        (translate_heb_words testEnv [("k", .str "שלום")] initState).2).2.remote_calls ≤
      initState.remote_calls + 1 ∧
    (translate_heb_words testEnv [("k2", .str "שלום")]
        (translate_heb_words testEnv [("k", .str "שלום")] initState).2).2.remote_calls =
      (translate_heb_words testEnv [("k", .str "שלום")] initState).2.remote_calls ∧
    rowFind (translate_heb_words testEnv [("k2", .str "שלום")]
        (translate_heb_words testEnv [("k", .str "שלום")] initState).2).1 "k2" =
      rowFind (translate_heb_words testEnv [("k", .str "שלום")] initState).1 "k" ∧
    (translate_heb_words testEnv [("k2", .str "שלום")]
        (translate_heb_words testEnv [("k", .str "שלום")] initState).2).2.trace =
      (translate_heb_words testEnv [("k", .str "שלום")] initState).2.trace :=
  translate_idempotent testEnv "k" "k2" "שלום" initState (by decide)

/-- C3: when the source field named by one fan-out catalog rule is NA, that
rule queues no target row and records exactly one exceptions row carrying
the offending source column (the `OriginalDataFieldIsMissing` shape:
`org_col` set, `target_col` null); and every sibling rule still queues
exactly the target rows it would have queued had the failing rule not run. -/
theorem obs_rule_failure_isolated (env : Env) (oT dT : String) (mc org_row : Row)
    (cr : CatalogRow) (st : PCState)
    (hnull : isna (getCol org_row cr.column_name) = true)
    (h1 : dT ≠ "exceptions") (h2 : dT ≠ "dictionary") :
    traceOf (process_row_by_observation_fact_rules env oT dT mc org_row cr st) dT =
      traceOf st dT ∧
    (∃ erow,
      traceOf (process_row_by_observation_fact_rules env oT dT mc org_row cr st) "exceptions" =
        traceOf st "exceptions" ++ [erow] ∧
      rowFind erow "org_col" = some (.str cr.column_name) ∧
      rowFind erow "target_col" = some .null) ∧
    ∀ cr2 : CatalogRow,
      stepNewRows env oT dT mc org_row cr2
          (process_row_by_observation_fact_rules env oT dT mc org_row cr st) =
        stepNewRows env oT dT mc org_row cr2 st := by
  refine ⟨?_, ?_, ?_⟩
  · rw [obs_step_traceOf env oT dT mc org_row cr st h1 h2, obsRuleRows, if_pos hnull]
    simp
  · rw [obs_step_isna env oT dT mc org_row cr st hnull]
    have hf := handle_exception_fields env oT dT org_row mc
      (.originalDataFieldIsMissing cr.column_name) st
    refine ⟨fillRow env "exceptions"
      (excRowOf env oT dT mc (.originalDataFieldIsMissing cr.column_name) (st.log_lines + 1)),
      ?_, ?_, ?_⟩
    · rw [traceOf_of_trace_append st hf.1 "exceptions"]
      simp
    · have hx : rowFind (excRowOf env oT dT mc (.originalDataFieldIsMissing cr.column_name)
          (st.log_lines + 1)) "org_col" = some (.str cr.column_name) := rfl
      rw [fillRow_find_of_isSome env "exceptions" _ "org_col" (by rw [hx]; rfl), hx]
    · have hx : rowFind (excRowOf env oT dT mc (.originalDataFieldIsMissing cr.column_name)
          (st.log_lines + 1)) "target_col" = some .null := rfl
      rw [fillRow_find_of_isSome env "exceptions" _ "target_col" (by rw [hx]; rfl), hx]
  · intro cr2
    unfold stepNewRows
    rw [obs_step_traceOf env oT dT mc org_row cr2
        (process_row_by_observation_fact_rules env oT dT mc org_row cr st) h1 h2,
      obs_step_traceOf env oT dT mc org_row cr2 st h1 h2,
      obs_step_effDict_isna env oT dT mc org_row cr st hnull]
    have hl : traceOf (process_row_by_observation_fact_rules env oT dT mc org_row cr st) dT =
        traceOf st dT := by
      rw [obs_step_traceOf env oT dT mc org_row cr st h1 h2, obsRuleRows, if_pos hnull]
      simp
    rw [hl, List.drop_left]

/-- C3 witness: a rule whose source field is absent from the source row;
no fact row, one exceptions row, and any sibling rule's output unchanged. -/
theorem obs_rule_failure_isolated_witness :
    traceOf (process_row_by_observation_fact_rules testEnv "labs" "observation_fact"
        [("start_date", .date 3)] [("val", .int 5)] c3Rule initState) "observation_fact" =
      traceOf initState "observation_fact" ∧
    (∃ erow,
      traceOf (process_row_by_observation_fact_rules testEnv "labs" "observation_fact"
          [("start_date", .date 3)] [("val", .int 5)] c3Rule initState) "exceptions" =
        traceOf initState "exceptions" ++ [erow] ∧
      rowFind erow "org_col" = some (.str c3Rule.column_name) ∧
      rowFind erow "target_col" = some .null) ∧
    ∀ cr2 : CatalogRow,
      stepNewRows testEnv "labs" "observation_fact" [("start_date", .date 3)]
          [("val", .int 5)] cr2
          (process_row_by_observation_fact_rules testEnv "labs" "observation_fact"
            [("start_date", .date 3)] [("val", .int 5)] c3Rule initState) =
        stepNewRows testEnv "labs" "observation_fact" [("start_date", .date 3)]
          [("val", .int 5)] cr2 initState :=
  obs_rule_failure_isolated testEnv "labs" "observation_fact" [("start_date", .date 3)]
    [("val", .int 5)] c3Rule initState (by decide) (by decide) (by decide)

/-- C10: when a source row headed for observation_fact carries a start date
not yet in the encounter table, the encounter is assigned before any
fan-out rule runs: exactly one new encounters-table row is queued (even if
every fan-out rule fails and no fact row is queued), and every fact row
this source row produces carries the same newly assigned encounter number
(for a catalog that does not map a source column onto `encounter_num`). -/
theorem obs_encounter_assigned_first (env : Env) (oT : String) (mc org_row : Row)
    (cat : List CatalogRow) (st : PCState) (d : Nat)
    (hsd : rowFind mc "start_date" = some (.date d))
    (hmiss : (effEnc env st).find? (fun p => p.1 = d) = none)
    (hnd : (rowKeys mc).Nodup)
    (htc : ∀ r ∈ cat, r.target_column ≠ "encounter_num") :
    ∃ st', observation_fact_process env oT "observation_fact" mc org_row cat st = some st' ∧
      traceOf st' "encounters" = traceOf st "encounters" ++
        [fillRow env "encounters"
          [("date", .date d), ("encounter_num", encMaxPlus1 (effEnc env st))]] ∧
      ∀ row ∈ (traceOf st' "observation_fact").drop (traceOf st "observation_fact").length,
        rowFind row "encounter_num" = some (encMaxPlus1 (effEnc env st)) := by
  unfold observation_fact_process
  rw [add_encounter_num_miss env mc st d hsd hmiss]
  dsimp only
  have htr1 : ({ add_row_to_batch env
      [("date", .date d), ("encounter_num", encMaxPlus1 (effEnc env st))] "encounters"
      { st with encounters := some (effEnc env st) } with
      encounters := some (effEnc env st ++ [(d, encMaxPlus1 (effEnc env st))]) } :
        PCState).trace =
      st.trace ++ [("encounters", fillRow env "encounters"
        [("date", .date d), ("encounter_num", encMaxPlus1 (effEnc env st))])] :=
    (add_row_to_batch_fields env _ "encounters" _).1
  obtain ⟨B, hB1, hB2, hB3⟩ := obs_fold2_spec env oT "observation_fact"
    (rowInsert mc "encounter_num" (encMaxPlus1 (effEnc env st))) org_row
    (cat.filter (fun r => decide (r.modifier_cd = some "@")))
    (cat.filter (fun r => r.modifier_cd.isSome && decide (r.modifier_cd ≠ some "@")))
    { add_row_to_batch env
        [("date", .date d), ("encounter_num", encMaxPlus1 (effEnc env st))] "encounters"
        { st with encounters := some (effEnc env st) } with
      encounters := some (effEnc env st ++ [(d, encMaxPlus1 (effEnc env st))]) }
    (by decide) (by decide)
  have hBenc : B.filter (fun p => decide (p.1 = "encounters")) = [] := by
    rw [List.filter_eq_nil_iff]
    intro p hp
    rcases hB2 p hp with h | h | h <;> simp [h]
  have hBobs := hB3
  refine ⟨_, rfl, ?_, ?_⟩
  · rw [traceOf_of_trace_append { add_row_to_batch env
        [("date", .date d), ("encounter_num", encMaxPlus1 (effEnc env st))] "encounters"
        { st with encounters := some (effEnc env st) } with
      encounters := some (effEnc env st ++ [(d, encMaxPlus1 (effEnc env st))]) } hB1
      "encounters", hBenc]
    rw [traceOf_of_trace_append st htr1 "encounters"]
    simp
  · intro row hrow
    rw [traceOf_of_trace_append { add_row_to_batch env
        [("date", .date d), ("encounter_num", encMaxPlus1 (effEnc env st))] "encounters"
        { st with encounters := some (effEnc env st) } with
      encounters := some (effEnc env st ++ [(d, encMaxPlus1 (effEnc env st))]) } hB1
      "observation_fact"] at hrow
    rw [traceOf_of_trace_append st htr1 "observation_fact"] at hrow
    have hsing : List.filter (fun p => decide (p.1 = "observation_fact"))
        [(("encounters" : String), fillRow env "encounters"
          [("date", .date d), ("encounter_num", encMaxPlus1 (effEnc env st))])] = [] := by
      simp
    rw [hsing, List.map_nil, List.append_nil, List.drop_left] at hrow
    obtain ⟨cr, hcr, dict, hd⟩ := hB3 row hrow
    have hcrcat : cr ∈ cat := by
      rcases hcr with h | h
      · exact (List.mem_filter.mp h).1
      · exact (List.mem_filter.mp h).1
    exact obsRuleRows_enc env "observation_fact" dict _ org_row cr
      (encMaxPlus1 (effEnc env st))
      (rowFind_rowInsert_self mc "encounter_num" (encMaxPlus1 (effEnc env st)))
      (isHebStrVal_encMaxPlus1 (effEnc env st))
      (nodup_rowKeys_rowInsert mc "encounter_num" (encMaxPlus1 (effEnc env st)) hnd)
      (htc cr hcrcat) row hd

/-- C10 witness: a fresh start date with a one-rule catalog, starting from
the empty encounter table. -/
theorem obs_encounter_assigned_first_witness :
    ∃ st', observation_fact_process testEnv "labs" "observation_fact"
        [("start_date", .date 3)] [("val", .int 5)] [obsRule] initState = some st' ∧
      traceOf st' "encounters" = traceOf initState "encounters" ++
        [fillRow testEnv "encounters"
          [("date", .date 3), ("encounter_num", encMaxPlus1 (effEnc testEnv initState))]] ∧
      ∀ row ∈ (traceOf st' "observation_fact").drop
          (traceOf initState "observation_fact").length,
        rowFind row "encounter_num" = some (encMaxPlus1 (effEnc testEnv initState)) :=
  obs_encounter_assigned_first testEnv "labs" [("start_date", .date 3)] [("val", .int 5)]
    [obsRule] initState 3 (by decide) (by decide) (by decide) (by decide)

/-- C2: when the catalog rules of one (source table, target table) pair
include a mandatory rule (both codes NULL) whose named source column is NA
in the source row, `get_mandatory_cols` fails, naming the source column of
such a mandatory rule; processing of that target table amounts to
recording the exception, which persists exactly one exceptions row
referencing that source column; and the target-table loop continues with
the remaining target tables from the exception-recording state. -/
theorem mandatory_missing_skips_pair (env : Env) (oT : String) (cat : List CatalogRow)
    (org_row : Row) (dT : String) (rest : List String) (st : PCState)
    (hex : ∃ r ∈ mandatoryRules (cat.filter (fun r => decide (r.target_table = dT))),
      isna (getCol org_row r.column_name) = true) :
    ∃ f, get_mandatory_cols env (cat.filter (fun r => decide (r.target_table = dT))) org_row
        = .error f ∧
      (∃ r ∈ mandatoryRules (cat.filter (fun r => decide (r.target_table = dT))),
        r.column_name = f ∧ isna (getCol org_row f) = true) ∧
      processTargetTable env oT cat org_row dT st =
        some (handle_exception env oT dT org_row [] (.mandatoryFieldMissing f) st) ∧
      (∃ erow,
        traceOf (handle_exception env oT dT org_row [] (.mandatoryFieldMissing f) st)
            "exceptions" = traceOf st "exceptions" ++ [erow] ∧
        rowFind erow "org_col" = some (.str f) ∧
        rowFind erow "target_table" = some (.str dT)) ∧
      processTargetTables env oT cat org_row (dT :: rest) st =
        processTargetTables env oT cat org_row rest
          (handle_exception env oT dT org_row [] (.mandatoryFieldMissing f) st) := by
  obtain ⟨f, hf0⟩ := mandatoryLoop_fails org_row
    (mandatoryRules (cat.filter (fun r => decide (r.target_table = dT)))) (seedCols env) hex
  have hf : get_mandatory_cols env (cat.filter (fun r => decide (r.target_table = dT)))
      org_row = .error f := hf0
  have hstep : processTargetTable env oT cat org_row dT st =
      some (handle_exception env oT dT org_row [] (.mandatoryFieldMissing f) st) := by
    unfold processTargetTable
    dsimp only
    rw [hf]
  refine ⟨f, hf, ?_, hstep, ?_, ?_⟩
  · exact mandatoryLoop_error org_row _ _ f hf
  · have hfields := handle_exception_fields env oT dT org_row []
      (.mandatoryFieldMissing f) st
    refine ⟨fillRow env "exceptions"
      (excRowOf env oT dT [] (.mandatoryFieldMissing f) (st.log_lines + 1)), ?_, ?_, ?_⟩
    · rw [traceOf_of_trace_append st hfields.1 "exceptions"]
      simp
    · have hx : rowFind (excRowOf env oT dT [] (.mandatoryFieldMissing f)
          (st.log_lines + 1)) "org_col" = some (.str f) := rfl
      rw [fillRow_find_of_isSome env "exceptions" _ "org_col" (by rw [hx]; rfl), hx]
    · have hx : rowFind (excRowOf env oT dT [] (.mandatoryFieldMissing f)
          (st.log_lines + 1)) "target_table" = some (.str dT) := rfl
      rw [fillRow_find_of_isSome env "exceptions" _ "target_table" (by rw [hx]; rfl), hx]
  · have hunf : processTargetTables env oT cat org_row (dT :: rest) st =
        match processTargetTable env oT cat org_row dT st with
        | none => none
        | some st2 => processTargetTables env oT cat org_row rest st2 := rfl
    rw [hunf, hstep]

/-- C2 witness: a catalog whose only rule for `patient_dimension` is a
mandatory rule on the absent column `patient_id`. -/
theorem mandatory_missing_skips_pair_witness :
    ∃ f, get_mandatory_cols testEnv ([mandRule].filter
        (fun r => decide (r.target_table = "patient_dimension"))) [("other", .int 1)]
        = .error f ∧
      (∃ r ∈ mandatoryRules ([mandRule].filter
          (fun r => decide (r.target_table = "patient_dimension"))),
        r.column_name = f ∧ isna (getCol [("other", .int 1)] f) = true) ∧
      processTargetTable testEnv "t_src" [mandRule] [("other", .int 1)] "patient_dimension"
          initState =
        some (handle_exception testEnv "t_src" "patient_dimension" [("other", .int 1)] []
          (.mandatoryFieldMissing f) initState) ∧
      (∃ erow,
        traceOf (handle_exception testEnv "t_src" "patient_dimension" [("other", .int 1)]
            [] (.mandatoryFieldMissing f) initState) "exceptions" =
          traceOf initState "exceptions" ++ [erow] ∧
        rowFind erow "org_col" = some (.str f) ∧
        rowFind erow "target_table" = some (.str "patient_dimension")) ∧
      processTargetTables testEnv "t_src" [mandRule] [("other", .int 1)]
          ("patient_dimension" :: ["observation_fact"]) initState =
        processTargetTables testEnv "t_src" [mandRule] [("other", .int 1)]
          ["observation_fact"]
          (handle_exception testEnv "t_src" "patient_dimension" [("other", .int 1)] []
            (.mandatoryFieldMissing f) initState) :=
  mandatory_missing_skips_pair testEnv "t_src" [mandRule] [("other", .int 1)]
    "patient_dimension" ["observation_fact"] initState (by decide)

/-- C5 counterexample: after one enqueue and the end-of-run
`save_all_rows_in_que`, the queue dict still holds the queued row — the
source writes the pending queues to storage but never clears them, so "every
queue is empty after flushAll" is false. -/
theorem flushAll_does_not_clear_queues :
    ∃ p ∈ (save_all_rows_in_que (add_row_to_batch testEnv [("he", .str "x")] "dictionary"
        initState)).batch_que, p.2 ≠ [] := by
  decide

/-- C5 (amended): after any enqueue call returns, every queue is strictly
below the 100-row flush threshold (so no queue ever exceeds it); the
end-of-run `save_all_rows_in_que` writes every non-empty queue to storage,
in queue-dict insertion order, but leaves the queue contents in place. -/
theorem batch_queue_invariant (env : Env) (r : Row) (t : String) (st : PCState)
    (h : quesBelow st) :
    quesBelow (add_row_to_batch env r t st) ∧
    (save_all_rows_in_que st).batch_que = st.batch_que ∧
    (save_all_rows_in_que st).saved =
      st.saved ++ st.batch_que.filter (fun p => 0 < p.2.length) ∧
    quesBelow initState := by
  refine ⟨?_, rfl, rfl, by intro p hp; simp [initState] at hp⟩
  unfold add_row_to_batch
  dsimp only
  split
  · rename_i hq
    intro p hp
    rcases mem_queSet _ _ _ _ hp with h0 | h0
    · rw [h0]
      simp
    · exact h p h0
  · rename_i hq
    intro p hp
    rcases mem_queSet _ _ _ _ hp with h0 | h0
    · rw [h0]
      omega
    · exact h p h0

/-- C5 witness: the amended batch invariant at a concrete enqueue from the
empty initial state. -/
theorem batch_queue_invariant_witness :
    quesBelow (add_row_to_batch testEnv [("he", .str "x")] "dictionary" initState) ∧
    (save_all_rows_in_que initState).batch_que = initState.batch_que ∧
    (save_all_rows_in_que initState).saved =
      initState.saved ++ initState.batch_que.filter (fun p => 0 < p.2.length) ∧
    quesBelow initState :=
  batch_queue_invariant testEnv [("he", .str "x")] "dictionary" initState
    (by intro p hp; simp [initState] at hp)

/-- C6 counterexample: a row carrying the key `b`, which is not a column of
the one-column table `t6`, reaches the storage write call still carrying
`b` — normalization adds the missing column `a` as null but never removes
extra keys, so "exactly the full column set" is false. -/
theorem saved_row_keeps_extra_key :
    (save_all_rows_in_que (add_row_to_batch c6Env [("b", .int 1)] "t6" initState)).saved =
      [("t6", [[("b", .int 1), ("a", .null)]])] ∧
    rowKeys [(("b" : String), Value.int 1), ("a", Value.null)] ≠ c6Env.get_columns "t6" ∧
    "b" ∈ rowKeys [(("b" : String), Value.int 1), ("a", Value.null)] ∧
    "b" ∉ c6Env.get_columns "t6" := by
  decide

/-- C6 (amended): the row handed to the queue (and hence to the storage
write) is the input row normalized against the table's column list: every
table column is present, columns the transformation did not set are null,
and keys outside the table's column set are passed through unchanged (the
key set is the union of the row's keys and the table's columns, not exactly
the column set). -/
theorem row_shape_normalized (env : Env) (r : Row) (t : String) (st : PCState) :
    (add_row_to_batch env r t st).trace = st.trace ++ [(t, fillRow env t r)] ∧
    (∀ c ∈ env.get_columns t, rowFind (fillRow env t r) c = some ((rowFind r c).getD .null)) ∧
    (∀ k, k ∉ env.get_columns t → rowFind (fillRow env t r) k = rowFind r k) ∧
    (∀ k, k ∈ rowKeys (fillRow env t r) ↔ k ∈ rowKeys r ∨ k ∈ env.get_columns t) := by
  refine ⟨(add_row_to_batch_fields env r t st).1, ?_, ?_,
    fun k => mem_rowKeys_fillRow env t r k⟩
  · intro c hc
    rw [fillRow_find]
    simp [hc]
  · intro k hk
    rw [fillRow_find]
    simp [hk]

/-- C6 witness: the normalization facts at a concrete row and table. -/
theorem row_shape_normalized_witness :
    (add_row_to_batch c6Env [("b", .int 1)] "t6" initState).trace =
      initState.trace ++ [("t6", fillRow c6Env "t6" [("b", .int 1)])] ∧
    (∀ c ∈ c6Env.get_columns "t6", rowFind (fillRow c6Env "t6" [("b", .int 1)]) c =
      some ((rowFind [("b", .int 1)] c).getD .null)) ∧
    (∀ k, k ∉ c6Env.get_columns "t6" → rowFind (fillRow c6Env "t6" [("b", .int 1)]) k =
      rowFind [("b", .int 1)] k) ∧
    (∀ k, k ∈ rowKeys (fillRow c6Env "t6" [("b", .int 1)]) ↔
      k ∈ rowKeys [("b", .int 1)] ∨ k ∈ c6Env.get_columns "t6") :=
  row_shape_normalized c6Env [("b", .int 1)] "t6" initState

/-- C1: a catalog rule for observation_fact whose `concept_cd` is present
but whose `modifier_cd` is NULL is skipped by both rule loops (the second
loop filters on `modifier_cd` being non-null), so its source value — though
present — produces no fact row at all, contradicting the fan-out contract
and the loop's own comment; only the encounters side effect of the call
remains. -/
theorem concept_only_rule_produces_no_row :
    (observation_fact_process testEnv "labs" "observation_fact" [("start_date", .date 3)]
        [("val", .int 5)] [c1Rule] initState).map
      (fun st => (traceOf st "observation_fact", traceOf st "exceptions")) = some ([], []) ∧
    isna (getCol [("val", .int 5)] "val") = false ∧
    c1Rule.modifier_cd ≠ some "@" ∧
    c1Rule.concept_cd.isSome = true ∧
    (observation_fact_process testEnv "labs" "observation_fact" [("start_date", .date 3)]
        [("val", .int 5)] [obsRule] initState).map
      (fun st => (traceOf st "observation_fact").length) = some 1 := by
  decide

/-- C4: starting from an empty encounter table, the first request for a
date computes `max(existing ids) + 1` on an empty column, which is NaN —
not 1 — and stores and queues that NaN id; the second request for the same
date returns the same NaN without queuing a new encounters row. -/
theorem empty_encounter_table_yields_nan :
    ((add_encounter_num testEnv [("start_date", .date 11)] initState).map
      (fun p => (rowFind p.1 "encounter_num", traceOf p.2 "encounters"))) =
      some (some .nan,
        [[("date", .date 11), ("encounter_num", .nan)]]) ∧
    ((add_encounter_num testEnv [("start_date", .date 11)] initState).bind
      (fun p => add_encounter_num testEnv [("start_date", .date 11)] p.2)).map
      (fun p => (rowFind p.1 "encounter_num", (traceOf p.2 "encounters").length)) =
      some (some .nan, 1) ∧
    Value.nan ≠ Value.int 1 := by
  decide

end Reuma
